import Mathlib

/-!
Verification of the `mv_videos` file-selection-and-move pipeline of the
`clams` repository against its design specification.

The pipeline lives in `src/bin/mv_videos.rs` (function `run`) and in the
library module `src/lib.rs` (function `fs::file_exists`).  The helper
module `clam::mv_videos` (functions `check_size_arg`, `parse_extensions`,
`build_find_cmd`, `destination_path`) is referenced by the binary but its
source is not part of the sources at hand; those four functions are
modelled from the specification, as marked on each definition.

Strings are embedded as Lean `String` (a wrapper around `List Char`);
line splitting follows the semantics of Rust's `str::lines`.  The
filesystem is embedded as a map from path strings to an optional object
kind, the external shell as a function from the command string to an
optional captured result, and `run` as a pure function returning the list
of emitted external events together with its `Result`.
-/

deriving instance DecidableEq for Except

/-- Kind of object a filesystem path can name. -/
inductive ObjKind where
  | file
  | dir
  | other
deriving DecidableEq

/-- A filesystem state: each path either names an object of some kind or nothing. -/
abbrev FsState := String → Option ObjKind

/-- Embedding of `clam::fs::file_exists` (src/lib.rs): `path.as_ref().exists()`
returns whether the path names any existing object, of whatever kind. -/
def file_exists (fs : FsState) (path : String) : Bool :=
  (fs path).isSome

/-- Errors surfaced by the pipeline, mirroring the `format_err!` returns of
`run` and the error cases of the spec (§7). -/
inductive RunError where
  | invalidSize (raw : String)
  | emptySources
  | emptyExtensions
  | destinationMissing (dir : String)
  | spawnFailed (cmd : String)
  | shellFailed (cmd : String) (output : String)
  | filesVanished (missing : List String)
  | invalidFileName
deriving DecidableEq

/-- Split a character list at every occurrence of `sep`; always returns at
least one (possibly empty) segment, like Rust's `str::split`. -/
def splitOnChar (sep : Char) : List Char → List (List Char)
  | [] => [[]]
  | c :: cs =>
    if c = sep then
      [] :: splitOnChar sep cs
    else
      match splitOnChar sep cs with
      | [] => [[c]]
      | s :: ss => (c :: s) :: ss

/-- Strip one trailing carriage return, as Rust's `str::lines` does on each
newline-terminated segment. -/
def stripCR (l : List Char) : List Char :=
  if l.getLast? = some '\r' then l.dropLast else l

/-- Rust `str::lines` on a character list: split at `'\n'`, strip a `'\r'`
from each newline-terminated segment, and drop a final empty segment (the
final line terminator is optional and an unterminated final segment keeps
any trailing `'\r'`). -/
def rustLinesChars (cs : List Char) : List (List Char) :=
  match (splitOnChar '\n' cs).getLast? with
  | some [] => (splitOnChar '\n' cs).dropLast.map stripCR
  | some l => (splitOnChar '\n' cs).dropLast.map stripCR ++ [l]
  | none => []

/-- Embedding of the result-parsing step of `run` (src/bin/mv_videos.rs):
`res.stdout_str().lines().map(|f| PathBuf::from(f)).collect()`.  `PathBuf::from`
is the identity on the path string. -/
def rustLines (s : String) : List String :=
  (rustLinesChars s.data).map String.mk

/-- The five size suffixes recognized by the size validator. -/
def sizeSuffixes : List Char := ['k', 'M', 'G', 'T', 'P']

/-- The magnitude part of a raw size string: the whole string, or the string
minus a final character when that character is a recognized scale suffix. -/
def magnitudeOf (raw : String) : List Char :=
  match raw.data.getLast? with
  | some c => if c ∈ sizeSuffixes then raw.data.dropLast else raw.data
  | none => []

/-- Whether a character list parses as a non-negative integer: non-empty and
all digits. -/
def isNonNegInt (cs : List Char) : Bool :=
  !cs.isEmpty && cs.all (fun c => c.isDigit)

/-- Modelled from the spec: `mv_videos::check_size_arg` is called from
src/bin/mv_videos.rs but the `clam::mv_videos` module source is absent.
Per §4.1, `validateSize` fails with `InvalidSize` if the raw string is
empty; if the last character is one of k, M, G, T, P it is stripped and the
remainder is the magnitude, else the whole string is the magnitude; it
fails with `InvalidSize` if the magnitude does not parse as a non-negative
integer, and otherwise succeeds. -/
def check_size_arg (raw : String) : Except RunError String :=
  if raw.data.isEmpty then
    .error (.invalidSize raw)
  else if isNonNegInt (magnitudeOf raw) then
    .ok raw
  else
    .error (.invalidSize raw)

/-- Strip one trailing comma, if present. -/
def stripTrailingComma (cs : List Char) : List Char :=
  if cs.getLast? = some ',' then cs.dropLast else cs

/-- Modelled from the spec: `mv_videos::parse_extensions` is called from
src/bin/mv_videos.rs but the `clam::mv_videos` module source is absent.
Per §4.1, `validateExtensions` fails with `EmptyExtensions` if the raw
string is empty, strips at most one trailing comma, splits on comma, and
returns the resulting segments in order (segments are not validated
individually, per §9). -/
def parse_extensions (raw : String) : Except RunError (List String) :=
  if raw.data.isEmpty then
    .error .emptyExtensions
  else
    .ok ((splitOnChar ',' (stripTrailingComma raw.data)).map String.mk)

/-- Modelled from the spec: `mv_videos::build_find_cmd` is called from
src/bin/mv_videos.rs but the `clam::mv_videos` module source is absent.
Per §4.2 and the byte-exact scenario of §8: fail with `EmptySources` or
`EmptyExtensions` on an empty list argument, else assemble
`find "<src1>" ... -type f -size +<size> -name "*.<e1>" -or -name "*.<e2>" ...`,
quoting each source and joining extension patterns with ` -or `. -/
def build_find_cmd (sources : List String) (size : String)
    (extensions : List String) : Except RunError String :=
  if sources.isEmpty then
    .error .emptySources
  else if extensions.isEmpty then
    .error .emptyExtensions
  else
    .ok ("find " ++ String.intercalate " " (sources.map (fun s => "\"" ++ s ++ "\"")) ++
      " -type f -size +" ++ size ++ " " ++
      String.intercalate " -or " (extensions.map (fun e => "-name \"*." ++ e ++ "\"")))

/-- The characters after the last `'/'` of a path (the whole path when it
contains no `'/'`): the file-name component, empty when the path ends in a
separator. -/
def fileNameChars (cs : List Char) : List Char :=
  (cs.reverse.takeWhile (fun c => c != '/')).reverse

/-- Modelled from the spec: `mv_videos::destination_path` is called from
src/bin/mv_videos.rs but the `clam::mv_videos` module source is absent.
Per §4.6 and §3, the destination is the destination directory joined with
the source's file-name component (last path segment) only; it fails when no
file-name component is extractable (path ending in a separator). -/
def destination_path (destination : String) (path : String) : Option String :=
  if (fileNameChars path.data).isEmpty then
    none
  else
    some (destination ++ "/" ++ String.mk (fileNameChars path.data))

/-- The command-line arguments consumed by `run` (struct `Args` in
src/bin/mv_videos.rs; the `verbose` field only configures logging and is
omitted). -/
structure Args where
  extensions : String
  size : String
  sources : List String
  destination : String
  dry : Bool
deriving DecidableEq

/-- Captured result of the external shell command: merged stdout/stderr text
and whether the exit status was a success. -/
structure ShellOut where
  exitSuccess : Bool
  stdout : String
deriving DecidableEq

/-- Externally observable events emitted by `run`: spawning the discovery
shell command, printing a `Moving {src} to {dst} ... done.` line, and
invoking the filesystem move primitive on a pair of paths (the vocabulary
of effects available to the program). -/
inductive Event where
  | spawn (cmd : String)
  | printMoving (src dst : String)
  | mv (src dst : String)
deriving DecidableEq

/-- Whether an event is an invocation of the move primitive. -/
def Event.isMv : Event → Bool
  | .mv _ _ => true
  | _ => false

/-- The existence-verification partition of `run` (src/bin/mv_videos.rs
lines 72-74): `files.into_iter().partition(|f| fs::file_exists(&f))`,
existing candidates first, order preserved within each part. -/
def verifyCandidates (fs : FsState) (files : List String) :
    List String × List String :=
  (files.filter (fun f => file_exists fs f),
   files.filter (fun f => !file_exists fs f))

/-- The destination-planning step of `run` (src/bin/mv_videos.rs lines
81-87): pair each verified file with `destination_path(&args.destination, f)`;
the Rust code calls `.unwrap()` on each result, so a missing file-name
component panics while the move list is being collected, before any of it
is consumed. -/
def planMoves (destination : String) (files : List String) :
    Option (List (String × String)) :=
  files.mapM (fun f => (destination_path destination f).map (fun d => (f, d)))

/-- Embedding of `run` (src/bin/mv_videos.rs lines 45-95) over an explicit
filesystem and shell oracle: returns the emitted events and the `Result`.
`shell cmd = none` models a spawn failure, `some res` a captured result. -/
def run (args : Args) (fs : FsState) (shell : String → Option ShellOut) :
    List Event × Except RunError Unit :=
  match check_size_arg args.size with
  | .error e => ([], .error e)
  | .ok _ =>
    if fs args.destination = some .dir then
      match parse_extensions args.extensions with
      | .error e => ([], .error e)
      | .ok extensions =>
        match build_find_cmd args.sources args.size extensions with
        | .error e => ([], .error e)
        | .ok find =>
          match shell find with
          | none => ([.spawn find], .error (.spawnFailed find))
          | some res =>
            if res.exitSuccess then
              if (verifyCandidates fs (rustLines res.stdout)).2.isEmpty then
                match planMoves args.destination
                    (verifyCandidates fs (rustLines res.stdout)).1 with
                | none => ([.spawn find], .error .invalidFileName)
                | some moves =>
                  (.spawn find :: moves.map (fun m => .printMoving m.1 m.2), .ok ())
              else
                ([.spawn find],
                  .error (.filesVanished (verifyCandidates fs (rustLines res.stdout)).2))
            else
              ([.spawn find], .error (.shellFailed find res.stdout))
    else
      ([], .error (.destinationMissing args.destination))

/-- Join a list of lines with a single `'\n'` between consecutive lines
(no terminator after the last line). -/
def joinNl : List (List Char) → List Char
  | [] => []
  | [l] => l
  | l :: ls => l ++ '\n' :: joinNl ls

theorem takeWhile_append_of_forall {α : Type} (p : α → Bool) (xs : List α)
    (y : α) (ys : List α) (hxs : ∀ x ∈ xs, p x = true) (hy : p y = false) :
    (xs ++ y :: ys).takeWhile p = xs := by
  induction xs with
  | nil => simp [List.takeWhile_cons, hy]
  | cons a l ih =>
    have ha := hxs a (by simp)
    simp only [List.cons_append, List.takeWhile_cons, ha, List.cons.injEq,
      true_and, if_true]
    exact ih (fun x hx => hxs x (by simp [hx]))

theorem fileNameChars_concat (pre name : List Char) (h : ('/') ∉ name) :
    fileNameChars (pre ++ '/' :: name) = name := by
  unfold fileNameChars
  rw [List.reverse_append, List.reverse_cons, List.append_assoc,
    List.singleton_append]
  rw [takeWhile_append_of_forall _ name.reverse '/' pre.reverse
    (fun x hx => by
      have hxn : x ∈ name := List.mem_reverse.mp hx
      have : x ≠ '/' := fun hc => h (hc ▸ hxn)
      simpa [bne_iff_ne] using this)
    (by simp)]
  exact List.reverse_reverse name

theorem splitOnChar_not_mem (sep : Char) (l : List Char) (h : sep ∉ l) :
    splitOnChar sep l = [l] := by
  induction l with
  | nil => rfl
  | cons c cs ih =>
    have hc : ¬(c = sep) := fun hcs => h (by simp [hcs])
    have hcs := ih (fun hm => h (by simp [hm]))
    simp [splitOnChar, hc, hcs]

theorem splitOnChar_append_sep (sep : Char) (l rest : List Char) (h : sep ∉ l) :
    splitOnChar sep (l ++ sep :: rest) = l :: splitOnChar sep rest := by
  induction l with
  | nil => simp [splitOnChar]
  | cons c cs ih =>
    have hc : ¬(c = sep) := fun hcs => h (by simp [hcs])
    have hcs := ih (fun hm => h (by simp [hm]))
    simp [splitOnChar, hc, hcs]

theorem splitOnChar_joinNl (ls : List (List Char)) (h0 : ls ≠ [])
    (h1 : ∀ l ∈ ls, ('\n') ∉ l) :
    splitOnChar '\n' (joinNl ls) = ls := by
  induction ls with
  | nil => exact absurd rfl h0
  | cons l ls ih =>
    cases ls with
    | nil => simpa [joinNl] using splitOnChar_not_mem '\n' l (h1 l (by simp))
    | cons l2 ls2 =>
      have hstep : joinNl (l :: l2 :: ls2) = l ++ '\n' :: joinNl (l2 :: ls2) := rfl
      rw [hstep, splitOnChar_append_sep _ _ _ (h1 l (by simp)),
        ih (by simp) (fun x hx => h1 x (by simp [hx]))]

theorem joinNl_concat_nil (ls : List (List Char)) (h : ls ≠ []) :
    joinNl (ls ++ [[]]) = joinNl ls ++ ['\n'] := by
  induction ls with
  | nil => exact absurd rfl h
  | cons l ls ih =>
    cases ls with
    | nil => rfl
    | cons l2 ls2 =>
      have h1 : joinNl ((l :: l2 :: ls2) ++ [[]]) =
          l ++ '\n' :: joinNl ((l2 :: ls2) ++ [[]]) := rfl
      have h2 : joinNl (l :: l2 :: ls2) = l ++ '\n' :: joinNl (l2 :: ls2) := rfl
      rw [h1, ih (by simp), h2]
      simp

theorem map_stripCR_id (ms : List (List Char))
    (hm : ∀ l ∈ ms, l.getLast? ≠ some '\r') :
    ms.map stripCR = ms := by
  induction ms with
  | nil => rfl
  | cons a as ih =>
    have ha : stripCR a = a := by
      unfold stripCR
      rw [if_neg (hm a (by simp))]
    simp [ha, ih (fun x hx => hm x (by simp [hx]))]

theorem rustLinesChars_joinNl (ls : List (List Char)) (h0 : ls ≠ [])
    (h1 : ∀ l ∈ ls, ('\n') ∉ l ∧ l.getLast? ≠ some '\r')
    (h2 : ls.getLast? ≠ some []) :
    rustLinesChars (joinNl ls) = ls := by
  unfold rustLinesChars
  rw [splitOnChar_joinNl ls h0 (fun l hl => (h1 l hl).1)]
  obtain ⟨a, as, hl⟩ : ∃ a as, ls.getLast? = some (a :: as) := by
    cases hgl : ls.getLast? with
    | none => exact absurd (List.getLast?_eq_none_iff.mp hgl) h0
    | some lst =>
      cases lst with
      | nil => exact absurd hgl h2
      | cons a as => exact ⟨a, as, rfl⟩
  rw [hl]
  show ls.dropLast.map stripCR ++ [a :: as] = ls
  rw [map_stripCR_id _ (fun l hl2 => (h1 l (List.dropLast_subset ls hl2)).2)]
  have hlast : ls.getLast h0 = a :: as := by
    have h3 := List.getLast?_eq_getLast ls h0
    rw [hl] at h3
    exact (Option.some.inj h3).symm
  rw [← hlast, List.dropLast_append_getLast h0]

theorem rustLinesChars_joinNl_terminated (ls : List (List Char)) (h0 : ls ≠ [])
    (h1 : ∀ l ∈ ls, ('\n') ∉ l ∧ l.getLast? ≠ some '\r') :
    rustLinesChars (joinNl ls ++ ['\n']) = ls := by
  rw [← joinNl_concat_nil ls h0]
  unfold rustLinesChars
  rw [splitOnChar_joinNl (ls ++ [[]]) (by simp)
    (fun l hl => by
      rcases List.mem_append.mp hl with h | h
      · exact (h1 l h).1
      · simp at h
        simp [h])]
  rw [List.getLast?_concat]
  show (ls ++ [[]]).dropLast.map stripCR = ls
  rw [List.dropLast_concat]
  exact map_stripCR_id ls (fun l hl => (h1 l hl).2)

/-- C2: for sources `one`, `two`, size `100M` and extensions avi, mkv, mp4,
`build_find_cmd` returns byte-for-byte the find command of the
specification, and for all inputs the builder is deterministic: identical
inputs always yield an identical command string. -/
theorem c2_build_find_cmd :
    build_find_cmd ["one", "two"] "100M" ["avi", "mkv", "mp4"] =
      .ok "find \"one\" \"two\" -type f -size +100M -name \"*.avi\" -or -name \"*.mkv\" -or -name \"*.mp4\"" ∧
    ∀ (sources : List String) (size : String) (extensions : List String),
      build_find_cmd sources size extensions = build_find_cmd sources size extensions :=
  ⟨by decide, fun _ _ _ => rfl⟩

/-- C5 counterexample: the claim predicts one CandidateFile per NON-empty
line, so the discovery output joining `a`, an empty line, and `b` would
parse to two candidates; the code parses it to three, keeping the empty
line as an (empty) candidate path. -/
theorem c5_counterexample_empty_line :
    rustLines "a\n\nb" = ["a", "", "b"] ∧ rustLines "a\n\nb" ≠ ["a", "b"] := by
  exact ⟨by decide, by decide⟩

/-- C5 (amended): for every raw discovery output, parse yields one
CandidateFile per line — empty interior lines included, while a final line
terminator adds no candidate — in output order with no deduplication, and
empty output yields the empty sequence rather than an error.  Stated over
an arbitrary line list (newline-free, not ending in a carriage return, last
line non-empty): joining with newlines, terminated or not, parses back to
exactly that list. -/
theorem c5_one_candidate_per_line (ls : List (List Char)) (h0 : ls ≠ [])
    (h1 : ∀ l ∈ ls, ('\n') ∉ l ∧ l.getLast? ≠ some '\r')
    (h2 : ls.getLast? ≠ some []) :
    rustLines (String.mk (joinNl ls)) = ls.map String.mk ∧
    rustLines (String.mk (joinNl ls ++ ['\n'])) = ls.map String.mk ∧
    rustLines "" = [] := by
  refine ⟨?_, ?_, by decide⟩
  · show (rustLinesChars (joinNl ls)).map String.mk = ls.map String.mk
    rw [rustLinesChars_joinNl ls h0 h1 h2]
  · show (rustLinesChars (joinNl ls ++ ['\n'])).map String.mk = ls.map String.mk
    rw [rustLinesChars_joinNl_terminated ls h0 h1]

theorem c5_one_candidate_per_line_witness :
    rustLines (String.mk (joinNl [['a'], [], ['b']])) =
      [['a'], [], ['b']].map String.mk := by
  exact (c5_one_candidate_per_line [['a'], [], ['b']] (by decide) (by decide)
    (by decide)).1

/-- C6: validateSize fails with InvalidSize on the empty string and on any
string whose magnitude (the whole string, or the string minus a final
character among k, M, G, T, P) does not parse as a non-negative integer; in
particular the empty string, `a10` and `100L` fail while `100` and `100k`
succeed. -/
theorem c6_check_size_arg :
    check_size_arg "" = .error (.invalidSize "") ∧
    check_size_arg "a10" = .error (.invalidSize "a10") ∧
    check_size_arg "100L" = .error (.invalidSize "100L") ∧
    check_size_arg "100" = .ok "100" ∧
    check_size_arg "100k" = .ok "100k" ∧
    ∀ raw : String, isNonNegInt (magnitudeOf raw) = false →
      check_size_arg raw = .error (.invalidSize raw) := by
  refine ⟨by decide, by decide, by decide, by decide, by decide, ?_⟩
  intro raw h
  unfold check_size_arg
  by_cases he : raw.data.isEmpty = true
  · rw [if_pos he]
  · rw [if_neg he, if_neg (by simp [h])]

theorem c6_check_size_arg_witness :
    check_size_arg "12x" = .error (.invalidSize "12x") :=
  c6_check_size_arg.2.2.2.2.2 "12x" (by decide)

/-- C7: parseExtensions fails on the empty string; it strips at most one
trailing comma before splitting on commas, so `mkv` yields exactly one
element, and `mkv,avi` and `mkv,avi,` both yield exactly the two elements
mkv then avi, in that order; appending one trailing comma to a string not
already ending in one never changes the result. -/
theorem c7_parse_extensions :
    parse_extensions "" = .error .emptyExtensions ∧
    parse_extensions "mkv" = .ok ["mkv"] ∧
    parse_extensions "mkv,avi" = .ok ["mkv", "avi"] ∧
    parse_extensions "mkv,avi," = .ok ["mkv", "avi"] ∧
    ∀ cs : List Char, cs ≠ [] → cs.getLast? ≠ some ',' →
      parse_extensions (String.mk (cs ++ [','])) = parse_extensions (String.mk cs) := by
  refine ⟨by decide, by decide, by decide, by decide, ?_⟩
  intro cs h1 h2
  have hstrip1 : stripTrailingComma (cs ++ [',']) = cs := by
    unfold stripTrailingComma
    rw [if_pos (List.getLast?_concat cs), List.dropLast_concat]
  have hstrip2 : stripTrailingComma cs = cs := by
    unfold stripTrailingComma
    rw [if_neg h2]
  show (if (cs ++ [',']).isEmpty = true then
      (.error .emptyExtensions : Except RunError (List String))
    else .ok ((splitOnChar ',' (stripTrailingComma (cs ++ [',']))).map String.mk)) =
    (if cs.isEmpty = true then .error .emptyExtensions
    else .ok ((splitOnChar ',' (stripTrailingComma cs)).map String.mk))
  rw [hstrip1, hstrip2, if_neg (by simp), if_neg (by simp [h1])]

theorem c7_parse_extensions_witness :
    parse_extensions (String.mk (['m', 'k', 'v'] ++ [','])) =
      parse_extensions (String.mk ['m', 'k', 'v']) :=
  c7_parse_extensions.2.2.2.2 ['m', 'k', 'v'] (by decide) (by decide)

/-- C8: destination planning maps a source path to the destination directory
joined with the source's file-name component only, independent of the
source's parent directory depth; in particular destination `/tmp` and
candidate `/temp/a_file` plan to exactly `/tmp/a_file`. -/
theorem c8_destination_path :
    destination_path "/tmp" "/temp/a_file" = some "/tmp/a_file" ∧
    ∀ (dest : String) (pre name : List Char), name ≠ [] → ('/') ∉ name →
      destination_path dest (String.mk (pre ++ '/' :: name)) =
        some (dest ++ "/" ++ String.mk name) := by
  refine ⟨by decide, ?_⟩
  intro dest pre name h1 h2
  show (if (fileNameChars (pre ++ '/' :: name)).isEmpty = true then none
    else some (dest ++ "/" ++ String.mk (fileNameChars (pre ++ '/' :: name)))) =
    some (dest ++ "/" ++ String.mk name)
  rw [fileNameChars_concat pre name h2, if_neg (by simp [h1])]

theorem c8_destination_path_witness :
    destination_path "/tmp"
        (String.mk (['/', 't', 'e', 'm', 'p'] ++ '/' :: ['a', '_', 'f', 'i', 'l', 'e'])) =
      some ("/tmp" ++ "/" ++ String.mk ['a', '_', 'f', 'i', 'l', 'e']) :=
  c8_destination_path.2 "/tmp" ['/', 't', 'e', 'm', 'p']
    ['a', '_', 'f', 'i', 'l', 'e'] (by decide) (by decide)

/-- C3: whenever validation, the destination check, extension parsing,
command construction and the discovery process all succeed but some
candidate reported by discovery does not exist at verification time, run
fails with FilesVanished carrying every missing candidate, and the only
external event is the discovery spawn — zero moves are attempted. -/
theorem c3_files_vanished (args : Args) (fs : FsState)
    (shell : String → Option ShellOut) (exts : List String) (find out : String)
    (hsize : ∃ s, check_size_arg args.size = .ok s)
    (hdest : fs args.destination = some ObjKind.dir)
    (hext : parse_extensions args.extensions = .ok exts)
    (hbuild : build_find_cmd args.sources args.size exts = .ok find)
    (hshell : shell find = some ⟨true, out⟩)
    (hmiss : ∃ f ∈ rustLines out, file_exists fs f = false) :
    (run args fs shell).2 =
      .error (.filesVanished ((rustLines out).filter (fun g => !file_exists fs g))) ∧
    (∀ f ∈ rustLines out, file_exists fs f = false →
      f ∈ (rustLines out).filter (fun g => !file_exists fs g)) ∧
    (run args fs shell).1 = [.spawn find] := by
  obtain ⟨s, hs⟩ := hsize
  obtain ⟨f, hfmem, hfex⟩ := hmiss
  have hfin : f ∈ (rustLines out).filter (fun g => !file_exists fs g) :=
    List.mem_filter.mpr ⟨hfmem, by simp [hfex]⟩
  have hne : ((rustLines out).filter (fun g => !file_exists fs g)).isEmpty = false := by
    cases hq : (rustLines out).filter (fun g => !file_exists fs g) with
    | nil => rw [hq] at hfin; cases hfin
    | cons a l => rfl
  have hrun : run args fs shell =
      ([.spawn find],
        .error (.filesVanished ((rustLines out).filter (fun g => !file_exists fs g)))) := by
    simp only [run, hs, hdest, hext, hbuild, hshell, verifyCandidates, hne,
      if_true, if_false]
    rw [if_neg (fun hc => Bool.noConfusion hc)]
  refine ⟨by rw [hrun], ?_, by rw [hrun]⟩
  intro g hg hge
  exact List.mem_filter.mpr ⟨hg, by simp [hge]⟩

theorem c3_files_vanished_witness :
    (run ⟨"avi", "100M", ["s"], "/tmp", false⟩
        (fun p => if p = "/tmp" then some ObjKind.dir else none)
        (fun _ => some ⟨true, "/temp/a_file"⟩)).2 =
      .error (.filesVanished ["/temp/a_file"]) ∧
    (run ⟨"avi", "100M", ["s"], "/tmp", false⟩
        (fun p => if p = "/tmp" then some ObjKind.dir else none)
        (fun _ => some ⟨true, "/temp/a_file"⟩)).1 =
      [.spawn "find \"s\" -type f -size +100M -name \"*.avi\""] := by
  have h := c3_files_vanished ⟨"avi", "100M", ["s"], "/tmp", false⟩
    (fun p => if p = "/tmp" then some ObjKind.dir else none)
    (fun _ => some ⟨true, "/temp/a_file"⟩) ["avi"]
    "find \"s\" -type f -size +100M -name \"*.avi\"" "/temp/a_file"
    ⟨"100M", by decide⟩ (by decide) (by decide) (by decide) rfl (by decide)
  refine ⟨?_, h.2.2⟩
  rw [h.1]
  decide

/-- C4: whenever size validation fails, or the destination is not an
existing directory, or extension validation fails, run aborts with an error
before the discovery process is spawned and before any filesystem mutation:
no external event at all is emitted. -/
theorem c4_fail_fast (args : Args) (fs : FsState)
    (shell : String → Option ShellOut)
    (h : (∃ e, check_size_arg args.size = .error e) ∨
      fs args.destination ≠ some ObjKind.dir ∨
      (∃ e, parse_extensions args.extensions = .error e)) :
    (∃ e, (run args fs shell).2 = .error e) ∧ (run args fs shell).1 = [] := by
  unfold run
  rcases h with ⟨e, he⟩ | hd | ⟨e, he⟩
  · rw [he]
    exact ⟨⟨e, rfl⟩, rfl⟩
  · cases hs : check_size_arg args.size with
    | error e2 => exact ⟨⟨e2, rfl⟩, rfl⟩
    | ok s =>
      rw [if_neg hd]
      exact ⟨⟨.destinationMissing args.destination, rfl⟩, rfl⟩
  · cases hs : check_size_arg args.size with
    | error e2 => exact ⟨⟨e2, rfl⟩, rfl⟩
    | ok s =>
      by_cases hd : fs args.destination = some ObjKind.dir
      · rw [if_pos hd, he]
        exact ⟨⟨e, rfl⟩, rfl⟩
      · rw [if_neg hd]
        exact ⟨⟨.destinationMissing args.destination, rfl⟩, rfl⟩

theorem c4_fail_fast_witness :
    (∃ e, (run ⟨"avi", "", ["s"], "/tmp", false⟩ (fun _ => none)
      (fun _ => none)).2 = .error e) ∧
    (run ⟨"avi", "", ["s"], "/tmp", false⟩ (fun _ => none)
      (fun _ => none)).1 = [] :=
  c4_fail_fast ⟨"avi", "", ["s"], "/tmp", false⟩ (fun _ => none)
    (fun _ => none) (Or.inl ⟨.invalidSize "", by decide⟩)

/-- C9: the execution phase of run performs no filesystem mutation at all:
no emitted event is an invocation of the move primitive (the loop only
prints), and run's result — events included — is identical whatever the
value of the dry flag, which is never read. -/
theorem c9_no_move_primitive :
    (∀ (args : Args) (fs : FsState) (shell : String → Option ShellOut),
      ((run args fs shell).1.all (fun e => !e.isMv)) = true) ∧
    (∀ (args : Args) (fs : FsState) (shell : String → Option ShellOut) (b : Bool),
      run { args with dry := b } fs shell = run args fs shell) := by
  constructor
  · intro args fs shell
    unfold run
    split
    · rfl
    · split
      · split
        · rfl
        · split
          · rfl
          · split
            · rfl
            · split
              · split
                · split
                  · rfl
                  · simp only [List.all_eq_true, List.mem_cons, List.mem_map]
                    rintro x (rfl | ⟨m, hm, rfl⟩) <;> rfl
                · rfl
              · rfl
      · rfl
  · intro args fs shell b
    rfl

/-- C10: verification checks only path existence, not file-ness: any
candidate naming an existing object of any kind — a directory included —
passes `file_exists` and lands in the verified part of the partition that
is handed to destination planning. -/
theorem c10_exists_any_kind (fs : FsState) (p : String) (k : ObjKind)
    (files : List String) (hk : fs p = some k) (hmem : p ∈ files) :
    file_exists fs p = true ∧ p ∈ (verifyCandidates fs files).1 := by
  have hex : file_exists fs p = true := by
    unfold file_exists
    rw [hk]
    rfl
  exact ⟨hex, List.mem_filter.mpr ⟨hmem, hex⟩⟩

theorem c10_exists_any_kind_witness :
    file_exists (fun q => if q = "d" then some ObjKind.dir else none) "d" = true ∧
    "d" ∈ (verifyCandidates (fun q => if q = "d" then some ObjKind.dir else none)
      ["d"]).1 :=
  c10_exists_any_kind (fun q => if q = "d" then some ObjKind.dir else none)
    "d" ObjKind.dir ["d"] (by decide) (by decide)

/-- C1: evaluation of run at a failing input for the claim: dry is false,
the destination directory exists, and discovery reports one existing file,
yet run only spawns the discovery command and prints one Moving line — it
never invokes the move primitive, so no move is performed. -/
theorem c1_no_move_performed :
    run ⟨"avi", "100M", ["s"], "/tmp", false⟩
        (fun p => if p = "/tmp" then some ObjKind.dir else
          if p = "/temp/a_file" then some ObjKind.file else none)
        (fun _ => some ⟨true, "/temp/a_file"⟩) =
      ([.spawn "find \"s\" -type f -size +100M -name \"*.avi\"",
        .printMoving "/temp/a_file" "/tmp/a_file"], .ok ()) ∧
    ((run ⟨"avi", "100M", ["s"], "/tmp", false⟩
        (fun p => if p = "/tmp" then some ObjKind.dir else
          if p = "/temp/a_file" then some ObjKind.file else none)
        (fun _ => some ⟨true, "/temp/a_file"⟩)).1.all
      (fun e => !e.isMv)) = true := by
  exact ⟨by decide, by decide⟩
